import Mathlib

/-
  Shallow embedding of libtsm's selection subsystem (src/tsm/tsm-selection.c).

  Modelling conventions:
  * `struct cell` keeps the two attributes this subsystem reads or writes:
    the codepoint `ch` and the damage stamp `age`.
  * `struct line` is a list of cells plus a row-level `age`; the C field
    `line->size` is the length of the cell array, modelled as `Line.size`.
  * The scrollback buffer (a singly linked chain of history rows) is a list
    `Screen.sb`, oldest row first.  A C pointer to a history row is modelled
    as an index into that list; `line->next` is `i+1` (or NULL at the end),
    `con->sb_first` is index 0, `con->sb_last` is the last index, and the
    strictly increasing `sb_id` of a row is its index, which preserves every
    `sb_id` comparison the C code makes.
  * `unsigned int` arithmetic that can wrap is made explicit with `u32sub`
    (subtraction modulo 2^32); `SELECTION_TOP` is `(unsigned)-1`.
  * An out-of-bounds array access (undefined behaviour in C) makes the
    modelled operation return `none`; operations that perform no such access
    return `some` of the updated screen.
  * NULL handle checks of the public API are modelled by wrappers taking
    `Option Screen`.
-/

/-- One display cell; only the `ch` (codepoint, 0 = empty) and `age`
(damage stamp) attributes are used by the selection subsystem. -/
structure Cell where
  ch : Nat
  age : Nat
deriving DecidableEq

/-- One row of cells plus the row-level damage stamp. -/
structure Line where
  cells : List Cell
  age : Nat
deriving DecidableEq

/-- The C field `line->size`: the capacity of the row's cell array. -/
def Line.size (l : Line) : Nat := l.cells.length

/-- The codepoints of a row, in order (the projection of the row that the
read-only extraction code depends on). -/
def chLine (l : Line) : List Nat := l.cells.map Cell.ch

/-- The C expression `line->cells[i].ch` (callers establish `i < size`). -/
def cellCh (l : Line) (i : Nat) : Nat := (chLine l).getD i 0

/-- The sentinel `SELECTION_TOP`, i.e. `(unsigned int)-1`. -/
def SELECTION_TOP : Nat := 4294967295

/-- Unsigned 32-bit subtraction `a - b` (wraps modulo 2^32). -/
def u32sub (a b : Nat) : Nat := (a + 4294967296 - b) % 4294967296

/-- `struct selection_pos`: an optional history-row reference (`line`,
modelled as an index into `Screen.sb`), a column `x` and a row value `y`
(a viewport index, a leftover count, or `SELECTION_TOP`). -/
structure SelPos where
  line : Option Nat
  x : Nat
  y : Nat
deriving DecidableEq

/-- The fields of `struct tsm_screen` that the selection subsystem uses. -/
structure Screen where
  size_x : Nat
  size_y : Nat
  lines : List Line
  sb : List Line
  sb_pos : Option Nat
  age_cnt : Nat
  sel_active : Bool
  sel_start : SelPos
  sel_end : SelPos
deriving DecidableEq

/-- `con->sb_first` as an index (none when the scrollback is empty). -/
def sb_first (s : Screen) : Option Nat :=
  if s.sb.length = 0 then none else some 0

/-- `con->sb_last` as an index (none when the scrollback is empty). -/
def sb_last (s : Screen) : Option Nat :=
  if s.sb.length = 0 then none else some (s.sb.length - 1)

/-- Modelled from the spec: the Grid Model hook `screen_inc_age`
(declared in libtsm-int.h, not part of src/) advances the process-wide
damage counter; "a process-wide damage/age counter incremented by a Grid
Model hook (`advance_age()`) called once per mutating operation". -/
def screen_inc_age (s : Screen) : Screen := { s with age_cnt := s.age_cnt + 1 }

/-- Modelled from the spec: alphanumeric classification "uses the
character's general category (letter or digit)"; the C code calls the
library routine `iswalnum`, modelled here on the ASCII letters and digits.
Note `iswalnum 0 = false`, so an empty cell is never alphanumeric. -/
def iswalnum (c : Nat) : Bool :=
  (48 ≤ c && c ≤ 57) || (65 ≤ c && c ≤ 90) || (97 ≤ c && c ≤ 122)

/-- Modelled from the spec: the consumed primitive `tsm_ucs4_to_utf8`
(tsm-unicode.c, not part of src/), "a codepoint-to-encoded-text conversion
function (maximum 4 output units per input codepoint)": standard UTF-8,
writing nothing for codepoints at or above 2^21. -/
def ucs4_to_utf8 (g : Nat) : List Nat :=
  if g < 128 then [g]
  else if g < 2048 then [192 + g / 64, 128 + g % 64]
  else if g < 65536 then [224 + g / 4096, 128 + g / 64 % 64, 128 + g % 64]
  else if g < 2097152 then
    [240 + g / 262144, 128 + g / 4096 % 64, 128 + g / 64 % 64, 128 + g % 64]
  else []

/-- The walk shared by `selection_set` and `line_get`:
`pos = con->sb_pos; while (y && pos) { --y; pos = pos->next; }`.
Returns the final chain position and the leftover `y`. -/
def sb_walk (sbLen : Nat) : Option Nat → Nat → Option Nat × Nat
  | p, 0 => (p, 0)
  | none, Nat.succ y => (none, y + 1)
  | some i, Nat.succ y => sb_walk sbLen (if i + 1 < sbLen then some (i + 1) else none) y

/-- `selection_set`: resolve `(x, y)` against the current scroll position,
yielding the stored selection position. -/
def selection_set (s : Screen) (x y : Nat) : SelPos :=
  { line := (sb_walk s.sb.length s.sb_pos y).1
    x := x
    y := (sb_walk s.sb.length s.sb_pos y).2 }

/-- `line_get`: same walk as `selection_set`; if the chain was not
exhausted return the history row, otherwise `con->lines[y]` with the
leftover `y` — which the C code does NOT bounds-check, so an out-of-range
index is modelled as `none`. -/
def line_get (s : Screen) (y : Nat) : Option Line :=
  match sb_walk s.sb.length s.sb_pos y with
  | (some i, _) => s.sb.get? i
  | (none, y') => s.lines.get? y'

/-- Stamp `age` onto the cells with index `j` satisfying
`lo ≤ j < hiEx` (the list bound plays the role of `j < line->size`). -/
def stamp_cells_go (age lo hiEx : Nat) : List Cell → Nat → List Cell
  | [], _ => []
  | c :: cs, j =>
      (if lo ≤ j ∧ j < hiEx then { c with age := age } else c) ::
        stamp_cells_go age lo hiEx cs (j + 1)

/-- Stamp a contiguous cell range of a row. -/
def stamp_cells (l : Line) (lo hiEx age : Nat) : Line :=
  { l with cells := stamp_cells_go age lo hiEx l.cells 0 }

/-- The boundary test of `selection_age`'s loop:
`start->line == line || (!start->line && start->y == k - 1)`, where the
current row is history row `cur` (then pointer equality with a viewport
row is false) or viewport row `kk - 1`; `k - 1` is unsigned, so `k = 0`
yields `SELECTION_TOP`. -/
def sel_match (p : SelPos) (cur : Option Nat) (kk : Nat) : Bool :=
  match p.line, cur with
  | some pl, some idx => pl = idx
  | some _, none => false
  | none, _ => p.y = (if kk = 0 then SELECTION_TOP else kk - 1)

/-- One iteration of `selection_age`'s row loop: given the current row,
stamp the cells or the row according to the boundary flags, and toggle
`in_sel` when exactly one boundary was met. -/
def age_one_line (sx age : Nat) (st en : SelPos) (cur : Option Nat) (kk : Nat)
    (in_sel : Bool) (line : Line) : Line × Bool :=
  let selS := sel_match st cur kk
  let selE := sel_match en cur kk
  if selS && selE then
    (if st.x ≤ en.x then stamp_cells line st.x (en.x + 1) age
     else stamp_cells line en.x (st.x + 1) age, in_sel)
  else if selS then
    ((if in_sel then stamp_cells line 0 (st.x + 1) age
      else stamp_cells line st.x sx age), !in_sel)
  else if selE then
    ((if in_sel then stamp_cells line 0 (en.x + 1) age
      else stamp_cells line en.x sx age), !in_sel)
  else if in_sel then ({ line with age := age }, in_sel)
  else (line, in_sel)

/-- The row loop of `selection_age` (`for (i = 0; i < con->size_y; ++i)`),
with `fuel` the number of remaining iterations, `cur` the history-chain
iterator and `k` the count of viewport rows consumed.  A row is taken from
the history chain while `cur` is set, then from `con->lines[k]`, whose
access is modelled as `none` when out of bounds. -/
def selection_age_loop (sx age : Nat) (st en : SelPos) :
    Nat → Screen → Option Nat → Nat → Bool → Option Screen
  | 0, s, _, _, _ => some s
  | Nat.succ fuel, s, some idx, k, in_sel =>
    match s.sb.get? idx with
    | none => none
    | some line =>
      let nxt := if idx + 1 < s.sb.length then some (idx + 1) else none
      let r := age_one_line sx age st en (some idx) k in_sel line
      selection_age_loop sx age st en fuel
        { s with sb := s.sb.set idx r.1 } nxt k r.2
  | Nat.succ fuel, s, none, k, in_sel =>
    match s.lines.get? k with
    | none => none
    | some line =>
      let r := age_one_line sx age st en none (k + 1) in_sel line
      selection_age_loop sx age st en fuel
        { s with lines := s.lines.set k r.1 } none (k + 1) r.2

/-- One initial toggle of `selection_age`:
`start->line ? (!iter || start->line->sb_id < iter->sb_id) : (start->y == SELECTION_TOP)`
with `iter = con->sb_pos` (row indices stand in for the strictly
increasing `sb_id`s). -/
def age_initial_toggle (s : Screen) (p : SelPos) : Bool :=
  match p.line with
  | some li => match s.sb_pos with
               | none => true
               | some ip => decide (li < ip)
  | none => decide (p.y = SELECTION_TOP)

/-- `selection_age`: stamp the current age onto the span between the two
(unnormalized) positions.  When both initial toggles fire, `in_sel` is
false again and the function returns with no change. -/
def selection_age (s : Screen) (st en : SelPos) : Option Screen :=
  if age_initial_toggle s st && age_initial_toggle s en then some s
  else selection_age_loop s.size_x s.age_cnt st en s.size_y s s.sb_pos 0
    (age_initial_toggle s st ^^ age_initial_toggle s en)

/-- `tsm_screen_selection_reset` on a non-NULL screen. -/
def tsm_screen_selection_reset (s : Screen) : Option Screen :=
  if s.sel_active = false then some s
  else
    let s1 := screen_inc_age s
    (selection_age s1 s1.sel_start s1.sel_end).map
      (fun s2 => { s2 with sel_active := false })

/-- `tsm_screen_selection_start` on a non-NULL screen: advance the age,
un-stamp any previous span, set both positions to the resolved `(x, y)`,
and stamp the new degenerate span. -/
def tsm_screen_selection_start (s : Screen) (posx posy : Nat) : Option Screen :=
  let s1 := screen_inc_age s
  let step1 := if s1.sel_active then selection_age s1 s1.sel_start s1.sel_end else some s1
  step1.bind (fun s2 =>
    let p := selection_set s2 posx posy
    let s3 := { s2 with sel_active := true, sel_start := p, sel_end := p }
    selection_age s3 s3.sel_start s3.sel_end)

/-- `tsm_screen_selection_target` on a non-NULL screen: no-op when
inactive; otherwise advance the age, move `sel_end`, and stamp the span
between the old and the new end. -/
def tsm_screen_selection_target (s : Screen) (posx posy : Nat) : Option Screen :=
  if s.sel_active = false then some s
  else
    let s1 := screen_inc_age s
    let olde := s1.sel_end
    let p := selection_set s1 posx posy
    let s2 := { s1 with sel_end := p }
    selection_age s2 olde s2.sel_end

/-- The left scan of `tsm_screen_selection_word`:
`for (i = posx - 1; i >= 0 && iswalnum(line->cells[i].ch); i--)`;
the result is `i + 1`. -/
def scan_left (line : Line) : Nat → Nat
  | 0 => 0
  | Nat.succ i => if iswalnum (cellCh line i) then scan_left line i else i + 1

/-- The loop of the right scan, with `fuel` bounding the remaining
steps (the loop advances while `i + 1 < line->size`, so `line.size`
steps always suffice). -/
def scan_right_go (line : Line) : Nat → Nat → Nat
  | i, 0 => i
  | i, Nat.succ fuel =>
    if i + 1 < line.size ∧ iswalnum (cellCh line (i + 1)) = true then
      scan_right_go line (i + 1) fuel
    else i

/-- The right scan of `tsm_screen_selection_word`:
`for (i = posx + 1; i < line->size && iswalnum(line->cells[i].ch); i++)`;
the result is `i - 1`. -/
def scan_right (line : Line) (i : Nat) : Nat := scan_right_go line i line.size

/-- `tsm_screen_selection_word` on a non-NULL screen.  Note the faithful
order of the C code: any existing span is stamped (with the NOT yet
advanced age counter) before the target cell is even examined, and the
counter is advanced only inside the alphanumeric branch. -/
def tsm_screen_selection_word (s : Screen) (posx posy : Nat) : Option Screen :=
  let step1 := if s.sel_active then selection_age s s.sel_start s.sel_end else some s
  step1.bind (fun s1 =>
    (line_get s1 posy).bind (fun line =>
      if posx < line.size ∧ iswalnum (cellCh line posx) = true then
        let s2 := screen_inc_age s1
        let startx := scan_left line posx
        let endx := scan_right line posx
        let p := selection_set s2 startx posy
        let s3 := { s2 with
                      sel_active := true
                      sel_start := p
                      sel_end := { p with x := endx } }
        selection_age s3 s3.sel_start s3.sel_end
      else some s1))

/-- `tsm_screen_selection_line` on a non-NULL screen: select all of row
`posy` (`sel_end.x = con->size_x - 1`, an unsigned subtraction). -/
def tsm_screen_selection_line (s : Screen) (posy : Nat) : Option Screen :=
  let s1 := screen_inc_age s
  let step1 := if s1.sel_active then selection_age s1 s1.sel_start s1.sel_end else some s1
  step1.bind (fun s2 =>
    let p := selection_set s2 0 posy
    let s3 := { s2 with
                  sel_active := true
                  sel_start := p
                  sel_end := { p with x := u32sub s2.size_x 1 } }
    selection_age s3 s3.sel_start s3.sel_end)

/-- The history walk of `norm_selection`: from row `i` (the tentative
end), walk toward `sb_last`; true iff the tentative start row is met
strictly before `sb_last` (the loop keeps walking after a swap, but a
second match is impossible, so the net effect is this test). -/
def norm_walk (s : Screen) : Nat → Nat → Nat → Bool
  | _, _, 0 => false
  | i, target, Nat.succ fuel =>
    if sb_last s = some i then false
    else match s.sb.get? i with
      | none => false
      | some _ =>
        if i = target then true
        else if i + 1 < s.sb.length then norm_walk s (i + 1) target fuel else false

/-- `norm_selection`: reorder an arbitrary (start, end) pair, by the C
code's case analysis (end = TOP; both in history; history vs screen;
same-row columns; row indices). -/
def norm_selection (s : Screen) (a b : SelPos) : SelPos × SelPos :=
  if b.line = none ∧ b.y = SELECTION_TOP then (b, a)
  else
    match a.line, b.line with
    | some la, some lb =>
      if la = lb then (if b.x < a.x then (b, a) else (a, b))
      else if norm_walk s lb la s.sb.length then (b, a) else (a, b)
    | none, some _ => (b, a)
    | some _, none =>
      if a.y = b.y then (if b.x < a.x then (b, a) else (a, b))
      else if b.y < a.y then (b, a) else (a, b)
    | none, none =>
      if a.y = b.y then (if b.x < a.x then (b, a) else (a, b))
      else if b.y < a.y then (b, a) else (a, b)

/-- The inner loop of `selection_count_lines_sb`, counting rows from `i`
up to and including `sb_last` (or the end of the chain). -/
def count_sb_walk (s : Screen) : Nat → Nat → Nat
  | _, 0 => 0
  | i, Nat.succ fuel =>
    match s.sb.get? i with
    | none => 0
    | some _ =>
      if sb_last s = some i then 1
      else if i + 1 < s.sb.length then 1 + count_sb_walk s (i + 1) fuel
      else 1

/-- `selection_count_lines_sb`: history rows spanned by a normalized
selection. -/
def selection_count_lines_sb (s : Screen) (a b : SelPos) : Nat :=
  if a.line ≠ none ∧ a.line = b.line then 1
  else match a.line with
       | none => 0
       | some i => count_sb_walk s i s.sb.length

/-- `selection_count_lines`: screen rows spanned by a normalized
selection (`end->y - start->y + 1` in unsigned arithmetic). -/
def selection_count_lines (a b : SelPos) : Nat :=
  if a.line ≠ none ∧ b.line ≠ none then 0
  else u32sub b.y a.y + 1

/-- `calc_selection_line_len_sb` for history row `li`. -/
def calc_selection_line_len_sb (s : Screen) (a b : SelPos) (li : Nat) : Nat :=
  if a.line = b.line then u32sub b.x a.x + 1
  else if a.line = some li then u32sub s.size_x a.x
  else if b.line = some li then b.x + 1
  else s.size_x

/-- `calc_selection_line_len` for screen row `line_num`. -/
def calc_selection_line_len (s : Screen) (a b : SelPos) (line_num : Nat) : Nat :=
  if a.line = none then
    if a.y = b.y then u32sub b.x a.x + 1
    else if line_num = a.y then u32sub s.size_x a.x
    else if line_num = b.y then b.x + 1
    else s.size_x
  else if line_num = b.y then b.x + 1
  else s.size_x

/-- `calc_line_copy_buffer`: the allocation size
`con->size_x * num_lines * 4 + 1` ("4 is the max size of a Unicode
character"). -/
def calc_line_copy_buffer (s : Screen) (num_lines : Nat) : Nat :=
  s.size_x * num_lines * 4 + 1

/-- The loop of `calc_line_len`, left to right over the codepoints,
remembering `i + 1` for the last nonzero cell. -/
def calc_line_len_go : List Nat → Nat → Nat → Nat
  | [], _, best => best
  | c :: cs, i, best => calc_line_len_go cs (i + 1) (if c ≠ 0 then i + 1 else best)

/-- `calc_line_len`: the length of a row up to its last non-empty cell. -/
def calc_line_len (l : Line) : Nat := calc_line_len_go (chLine l) 0 0

/-- The encoding loop of `copy_line`: encode the nonzero codepoints with
index `lo ≤ i < hi` (the list bound plays the role of `i < line->size`). -/
def encode_range (chs : List Nat) (lo hi : Nat) : List Nat :=
  (((chs.take hi).drop lo).map (fun c => if c ≠ 0 then ucs4_to_utf8 c else [])).flatten

/-- `copy_line`: emit the cells `[start, start+len)` of a row, clamped to
`calc_line_len` (returning nothing at all if `start` lies beyond it),
then one line break.  (`end = start + len` is computed without the
2^32 wrap of the C `unsigned int` sum; the sum only wraps for a stored
column beyond the row width combined with a near-2^32 `len`, a corner
outside every property below.) -/
def copy_line (l : Line) (start len : Nat) : List Nat :=
  let line_len := calc_line_len l
  if line_len < start then []
  else encode_range (chLine l) start (min (start + len) line_len) ++ ucs4_to_utf8 10

/-- The loop of `copy_lines_sb` from history row `i`: emit each row,
stopping after `sb_last` or after the row holding the selection end. -/
def sb_copy_walk (s : Screen) (a b : SelPos) : Nat → Nat → List Nat
  | _, 0 => []
  | i, Nat.succ fuel =>
    match s.sb.get? i with
    | none => []
    | some line =>
      let line_x := if a.line = some i then a.x else 0
      let bytes := copy_line line line_x (calc_selection_line_len_sb s a b i)
      if sb_last s = some i ∨ b.line = some i then bytes
      else if i + 1 < s.sb.length then bytes ++ sb_copy_walk s a b (i + 1) fuel
      else bytes

/-- `copy_lines_sb`: the history part of the extraction walk. -/
def copy_lines_sb (s : Screen) (a b : SelPos) : List Nat :=
  match a.line with
  | none => []
  | some i => sb_copy_walk s a b i s.sb.length

/-- The loop of `copy_lines` (`for (i = start->y; i <= end->y; i++)`),
with `fuel` the number of remaining iterations; `con->lines[i]` is not
bounds-checked by the C code, so an out-of-range index is `none`. -/
def screen_copy_walk (s : Screen) (a b : SelPos) : Nat → Nat → Option (List Nat)
  | _, 0 => some []
  | i, Nat.succ fuel =>
    match s.lines.get? i with
    | none => none
    | some line =>
      let line_x := if a.line = none ∧ i = a.y then a.x else 0
      let bytes := copy_line line line_x (calc_selection_line_len s a b i)
      (screen_copy_walk s a b (i + 1) fuel).map (fun rest => bytes ++ rest)

/-- `copy_lines`: the screen part of the extraction walk (nothing when the
selection ends in the scrollback). -/
def copy_lines (s : Screen) (a b : SelPos) : Option (List Nat) :=
  if b.line ≠ none then some []
  else screen_copy_walk s a b a.y (b.y + 1 - a.y)

/-- The "invalid selection" test of `tsm_screen_selection_copy`: both
positions are the bare TOP sentinel. -/
def both_top (s : Screen) : Bool :=
  decide (s.sel_start.y = SELECTION_TOP) && decide (s.sel_start.line = none) &&
  decide (s.sel_end.y = SELECTION_TOP) && decide (s.sel_end.line = none)

/-- `tsm_screen_selection_copy`'s TOP resolution after normalization: a
bare TOP start becomes the first history row (column 0), or viewport row 0
(column 0) when there is no history. -/
def resolve_top (s : Screen) (a : SelPos) : SelPos :=
  if a.line = none ∧ a.y = SELECTION_TOP then
    match sb_first s with
    | some f => { a with line := some f, x := 0 }
    | none => { a with y := 0, x := 0 }
  else a

/-- The normalized and TOP-resolved span that the extraction walk uses. -/
def sel_copy_span (s : Screen) : SelPos × SelPos :=
  ((resolve_top s (norm_selection s s.sel_start s.sel_end).1),
   (norm_selection s s.sel_start s.sel_end).2)

/-- `total_lines` of `tsm_screen_selection_copy`. -/
def sel_copy_total_lines (s : Screen) : Nat :=
  selection_count_lines_sb s (sel_copy_span s).1 (sel_copy_span s).2 +
  selection_count_lines (sel_copy_span s).1 (sel_copy_span s).2

/-- The allocation size `tsm_screen_selection_copy` requests. -/
def sel_copy_bufsize (s : Screen) : Nat :=
  calc_line_copy_buffer s (sel_copy_total_lines s)

/-- Every byte the extraction walk of `tsm_screen_selection_copy` writes
into the allocated buffer (history part then screen part), before the
trailing line break is removed. -/
def sel_copy_bytes (s : Screen) : Option (List Nat) :=
  (copy_lines s (sel_copy_span s).1 (sel_copy_span s).2).map
    (fun scr => copy_lines_sb s (sel_copy_span s).1 (sel_copy_span s).2 ++ scr)

/-- Result type of the two copy entry points: the C error codes `-EINVAL`,
`-ENOENT`, `-ENOMEM`, or success carrying the returned text bytes. -/
inductive CopyResult where
  | invalidArgument
  | noSelection
  | outOfMemory
  | ok (bytes : List Nat)
deriving DecidableEq

/-- `tsm_screen_selection_copy` on a non-NULL screen with a non-NULL out
pointer; `allocOk` is the allocation oracle for the extraction buffer.
Success strips the single trailing line break (`(*out)[--pos] = 0`). -/
def tsm_screen_selection_copy (s : Screen) (allocOk : Bool) : Option CopyResult :=
  if s.sel_active = false then some CopyResult.noSelection
  else if both_top s then some (CopyResult.ok [])
  else if allocOk = false then some CopyResult.outOfMemory
  else (sel_copy_bytes s).map (fun bytes => CopyResult.ok bytes.dropLast)

/-- The public `tsm_screen_selection_copy(con, out)`: `-EINVAL` when
either handle is NULL. -/
def selection_copy_api (con : Option Screen) (outOk allocOk : Bool) :
    Option CopyResult :=
  match con with
  | none => some CopyResult.invalidArgument
  | some s =>
    if outOk = false then some CopyResult.invalidArgument
    else tsm_screen_selection_copy s allocOk

/-- The viewport loop of `tsm_screen_copy_all`
(`for (i = 0; i < con->size_y; ++i)` with unchecked `con->lines[i]`). -/
def copy_all_walk (s : Screen) : Nat → Nat → Option (List Nat)
  | _, 0 => some []
  | i, Nat.succ fuel =>
    match s.lines.get? i with
    | none => none
    | some line =>
      (copy_all_walk s (i + 1) fuel).map
        (fun rest => copy_line line 0 s.size_x ++ rest)

/-- The bytes `tsm_screen_copy_all` writes: every history row (full
width), then every viewport row; no trailing line break is removed. -/
def copy_all_bytes (s : Screen) : Option (List Nat) :=
  (copy_all_walk s 0 s.size_y).map
    (fun scr => (s.sb.map (fun l => copy_line l 0 l.size)).flatten ++ scr)

/-- The buffer size `tsm_screen_copy_all` computes:
`(sum of (size+1) over history rows + size_y*(size_x+1)) * 4 + 1`. -/
def copy_all_bufsize (s : Screen) : Nat :=
  ((s.sb.map (fun l => l.size + 1)).sum + s.size_y * (s.size_x + 1)) * 4 + 1

/-- The public `tsm_screen_copy_all(con, out)`. -/
def tsm_screen_copy_all (con : Option Screen) (outOk allocOk : Bool) :
    Option CopyResult :=
  match con with
  | none => some CopyResult.invalidArgument
  | some s =>
    if outOk = false then some CopyResult.invalidArgument
    else if allocOk = false then some CopyResult.outOfMemory
    else (copy_all_bytes s).map CopyResult.ok

/-- The public `tsm_screen_selection_reset(con)` over a possibly NULL
handle: the outer `none` would model undefined behaviour, the inner
`Option Screen` is the handle after the call. -/
def api_reset (con : Option Screen) : Option (Option Screen) :=
  match con with
  | none => some none
  | some s => (tsm_screen_selection_reset s).map some

/-- The public `tsm_screen_selection_start(con, x, y)` over a possibly
NULL handle. -/
def api_start (con : Option Screen) (x y : Nat) : Option (Option Screen) :=
  match con with
  | none => some none
  | some s => (tsm_screen_selection_start s x y).map some

/-- The public `tsm_screen_selection_target(con, x, y)` over a possibly
NULL handle. -/
def api_target (con : Option Screen) (x y : Nat) : Option (Option Screen) :=
  match con with
  | none => some none
  | some s => (tsm_screen_selection_target s x y).map some

/-- The public `tsm_screen_selection_word(con, x, y)` over a possibly
NULL handle. -/
def api_word (con : Option Screen) (x y : Nat) : Option (Option Screen) :=
  match con with
  | none => some none
  | some s => (tsm_screen_selection_word s x y).map some

/-- The public `tsm_screen_selection_line(con, y)` over a possibly NULL
handle. -/
def api_line (con : Option Screen) (y : Nat) : Option (Option Screen) :=
  match con with
  | none => some none
  | some s => (tsm_screen_selection_line s y).map some

/-! Helper lemmas about lists, used to relate a stamped screen to the
original one. -/

/-- `get?` commutes with `map`. -/
theorem list_get?_map (f : Cell → Nat) :
    ∀ (l : List Cell) (i : Nat), (l.map f).get? i = (l.get? i).map f := by
  intro l
  induction l with
  | nil => intro i; cases i <;> rfl
  | cons c cs ih => intro i; cases i with
    | zero => rfl
    | succ j => simpa using ih j

/-- `get?` commutes with `map` on lists of lines. -/
theorem list_get?_mapL (f : Line → List Nat) :
    ∀ (l : List Line) (i : Nat), (l.map f).get? i = (l.get? i).map f := by
  intro l
  induction l with
  | nil => intro i; cases i <;> rfl
  | cons c cs ih => intro i; cases i with
    | zero => rfl
    | succ j => simpa using ih j

/-- `map` commutes with `set` on lists of lines. -/
theorem list_map_setL (f : Line → List Nat) :
    ∀ (l : List Line) (i : Nat) (a : Line),
      (l.set i a).map f = (l.map f).set i (f a) := by
  intro l
  induction l with
  | nil => intro i a; cases i <;> rfl
  | cons c cs ih => intro i a; cases i with
    | zero => rfl
    | succ j => simp [List.set, ih]

/-- Setting an entry to the value it already holds is the identity. -/
theorem list_set_self : ∀ (l : List (List Nat)) (i : Nat) (a : List Nat),
    l.get? i = some a → l.set i a = l := by
  intro l
  induction l with
  | nil => intro i a h; cases i <;> simp_all
  | cons c cs ih => intro i a h; cases i with
    | zero => simp_all
    | succ j => simp_all [List.set, ih j a]

/-- u32sub of equal values is zero. -/
theorem u32sub_self (x : Nat) : u32sub x x = 0 := by
  simp [u32sub]

/-- Stamping never changes a codepoint. -/
theorem stamp_cells_go_ch (age lo hiEx : Nat) :
    ∀ (cs : List Cell) (j : Nat),
      (stamp_cells_go age lo hiEx cs j).map Cell.ch = cs.map Cell.ch := by
  intro cs
  induction cs with
  | nil => intro j; rfl
  | cons c cs ih =>
    intro j
    simp only [stamp_cells_go, List.map_cons, ih]
    split <;> rfl

/-- `stamp_cells` preserves the codepoints of a row. -/
theorem chLine_stamp_cells (l : Line) (lo hiEx age : Nat) :
    chLine (stamp_cells l lo hiEx age) = chLine l := by
  simp [chLine, stamp_cells, stamp_cells_go_ch]

/-- The row produced by one ageing iteration has the same codepoints. -/
theorem chLine_age_one_line (sx age : Nat) (st en : SelPos) (cur : Option Nat)
    (kk : Nat) (in_sel : Bool) (line : Line) :
    chLine (age_one_line sx age st en cur kk in_sel line).1 = chLine line := by
  unfold age_one_line
  cases hS : sel_match st cur kk <;> cases hE : sel_match en cur kk <;>
    simp only [hS, hE] <;> split_ifs <;>
    simp [chLine, stamp_cells, stamp_cells_go_ch]

/-- Two screens agree on everything `selection_age` does not write:
the geometry, the scroll position and the codepoint content of every
row (only cell/row ages may differ). -/
def gridEq (s t : Screen) : Prop :=
  t.size_x = s.size_x ∧ t.size_y = s.size_y ∧ t.sb_pos = s.sb_pos ∧
  t.sb.map chLine = s.sb.map chLine ∧ t.lines.map chLine = s.lines.map chLine

/-- `gridEq` together with unchanged selection state and age counter:
everything `selection_age` preserves. -/
def ageEq (s t : Screen) : Prop :=
  gridEq s t ∧ t.age_cnt = s.age_cnt ∧ t.sel_start = s.sel_start ∧
  t.sel_end = s.sel_end ∧ t.sel_active = s.sel_active

theorem ageEq_refl (s : Screen) : ageEq s s := by
  constructor
  · exact ⟨rfl, rfl, rfl, rfl, rfl⟩
  · exact ⟨rfl, rfl, rfl, rfl⟩

theorem ageEq_trans {s t u : Screen} (h1 : ageEq s t) (h2 : ageEq t u) :
    ageEq s u := by
  obtain ⟨⟨a1, a2, a3, a4, a5⟩, a6, a7, a8, a9⟩ := h1
  obtain ⟨⟨b1, b2, b3, b4, b5⟩, b6, b7, b8, b9⟩ := h2
  exact ⟨⟨b1.trans a1, b2.trans a2, b3.trans a3, b4.trans a4, b5.trans a5⟩,
    b6.trans a6, b7.trans a7, b8.trans a8, b9.trans a9⟩

/-- `gridEq` screens have scrollbacks of the same length. -/
theorem gridEq_sb_length {s t : Screen} (h : gridEq s t) :
    t.sb.length = s.sb.length := by
  have := congrArg List.length h.2.2.2.1
  simpa using this

/-- `gridEq` screens have viewports of the same length. -/
theorem gridEq_lines_length {s t : Screen} (h : gridEq s t) :
    t.lines.length = s.lines.length := by
  have := congrArg List.length h.2.2.2.2
  simpa using this

/-- Well-formedness of a screen state: the viewport array has `size_y`
rows and the scroll position points into the scrollback. -/
def WF (s : Screen) : Prop :=
  s.lines.length = s.size_y ∧ ∀ i, s.sb_pos = some i → i < s.sb.length

theorem ageEq_WF {s t : Screen} (h : ageEq s t) (hw : WF s) : WF t := by
  obtain ⟨hg, -, -, -, -⟩ := h
  constructor
  · rw [gridEq_lines_length hg, hg.2.1, hw.1]
  · intro i hi
    rw [gridEq_sb_length hg]
    exact hw.2 i (hg.2.2.1 ▸ hi)

/-- The ageing loop never fails on a well-formed screen, and only cell and
row ages change: geometry, scroll position, codepoints, selection state
and the age counter are untouched. -/
theorem selection_age_loop_spec (sx age : Nat) (st en : SelPos) :
    ∀ (fuel : Nat) (s : Screen) (cur : Option Nat) (k : Nat) (in_sel : Bool),
      k + fuel ≤ s.lines.length →
      (∀ i, cur = some i → i < s.sb.length) →
      ∃ t, selection_age_loop sx age st en fuel s cur k in_sel = some t ∧ ageEq s t := by
  intro fuel
  induction fuel with
  | zero => intro s cur k in_sel _ _; exact ⟨s, rfl, ageEq_refl s⟩
  | succ fuel ih =>
    intro s cur k in_sel hk hcur
    cases cur with
    | some idx =>
      have hidx : idx < s.sb.length := hcur idx rfl
      have hget : s.sb.get? idx = some (s.sb.get ⟨idx, hidx⟩) := List.get?_eq_get hidx
      obtain ⟨t, ht, hae⟩ := ih
        { s with sb := s.sb.set idx (age_one_line sx age st en (some idx) k in_sel (s.sb.get ⟨idx, hidx⟩)).1 }
        (if idx + 1 < s.sb.length then some (idx + 1) else none) k
        (age_one_line sx age st en (some idx) k in_sel (s.sb.get ⟨idx, hidx⟩)).2
        (by simpa using Nat.le_of_succ_le hk)
        (by
          intro i hi
          split at hi
          · cases hi
            simpa using (by assumption : idx + 1 < s.sb.length)
          · cases hi)
      refine ⟨t, ?_, ageEq_trans ?_ hae⟩
      · simp only [selection_age_loop, hget]
        exact ht
      · refine ⟨⟨rfl, rfl, rfl, ?_, rfl⟩, rfl, rfl, rfl, rfl⟩
        rw [list_map_setL, chLine_age_one_line, list_set_self]
        rw [list_get?_mapL, hget]
        rfl
    | none =>
      have hkk : k < s.lines.length := by omega
      have hget : s.lines.get? k = some (s.lines.get ⟨k, hkk⟩) := List.get?_eq_get hkk
      obtain ⟨t, ht, hae⟩ := ih
        { s with lines := s.lines.set k (age_one_line sx age st en none (k + 1) in_sel (s.lines.get ⟨k, hkk⟩)).1 }
        none (k + 1)
        (age_one_line sx age st en none (k + 1) in_sel (s.lines.get ⟨k, hkk⟩)).2
        (by simp only [List.length_set]; omega)
        (by intro i hi; cases hi)
      refine ⟨t, ?_, ageEq_trans ?_ hae⟩
      · simp only [selection_age_loop, hget]
        exact ht
      · refine ⟨⟨rfl, rfl, rfl, rfl, ?_⟩, rfl, rfl, rfl, rfl⟩
        rw [list_map_setL, chLine_age_one_line, list_set_self]
        rw [list_get?_mapL, hget]
        rfl

/-- `selection_age` never fails on a well-formed screen and changes only
cell and row ages. -/
theorem selection_age_spec (s : Screen) (st en : SelPos) (hw : WF s) :
    ∃ t, selection_age s st en = some t ∧ ageEq s t := by
  unfold selection_age
  split
  · exact ⟨s, rfl, ageEq_refl s⟩
  · exact selection_age_loop_spec s.size_x s.age_cnt st en s.size_y s s.sb_pos 0 _
      (by simpa using Nat.le_of_eq hw.1.symm) hw.2

theorem gridEq_trans {s t u : Screen} (h1 : gridEq s t) (h2 : gridEq t u) :
    gridEq s u := by
  obtain ⟨a1, a2, a3, a4, a5⟩ := h1
  obtain ⟨b1, b2, b3, b4, b5⟩ := h2
  exact ⟨b1.trans a1, b2.trans a2, b3.trans a3, b4.trans a4, b5.trans a5⟩

/-- `selection_set` reads only the scroll position and the chain length,
so it agrees on grid-equal screens. -/
theorem selection_set_congr {s t : Screen} (h : gridEq s t) (x y : Nat) :
    selection_set t x y = selection_set s x y := by
  unfold selection_set
  rw [gridEq_sb_length h, h.2.2.1]

/-- `line_get` returns rows with the same codepoints on grid-equal
screens (and in particular succeeds on one iff it succeeds on the
other). -/
theorem line_get_congr {s t : Screen} (h : gridEq s t) (y : Nat) :
    (line_get t y).map chLine = (line_get s y).map chLine := by
  unfold line_get
  rw [gridEq_sb_length h, h.2.2.1]
  rcases sb_walk s.sb.length s.sb_pos y with ⟨p, y'⟩
  cases p with
  | none =>
    show (t.lines.get? y').map chLine = (s.lines.get? y').map chLine
    rw [← list_get?_mapL, ← list_get?_mapL, h.2.2.2.2]
  | some i =>
    show (t.sb.get? i).map chLine = (s.sb.get? i).map chLine
    rw [← list_get?_mapL, ← list_get?_mapL, h.2.2.2.1]

/-- Advancing the age counter is grid-preserving and keeps the screen
well formed. -/
theorem WF_inc (s : Screen) (hw : WF s) : WF (screen_inc_age s) := hw

theorem gridEq_inc (s : Screen) : gridEq s (screen_inc_age s) :=
  ⟨rfl, rfl, rfl, rfl, rfl⟩

/-- Rows with equal codepoint lists have equal `size`. -/
theorem size_of_chLine {l1 l2 : Line} (h : chLine l1 = chLine l2) :
    l1.size = l2.size := by
  have := congrArg List.length h
  simpa [chLine, Line.size] using this


/-- `tsm_screen_selection_start` on a well-formed screen: it always
succeeds, leaves an active degenerate selection at the resolved position,
advances the age counter once, and touches nothing but ages besides the
selection state. -/
theorem start_spec (s : Screen) (x y : Nat) (hw : WF s) :
    ∃ t, tsm_screen_selection_start s x y = some t ∧
      t.sel_active = true ∧
      t.sel_start = selection_set s x y ∧
      t.sel_end = selection_set s x y ∧
      gridEq s t ∧ t.age_cnt = s.age_cnt + 1 := by
  have hw1 : WF (screen_inc_age s) := hw
  have step : ∃ s2,
      (if (screen_inc_age s).sel_active = true then
        selection_age (screen_inc_age s) (screen_inc_age s).sel_start (screen_inc_age s).sel_end
      else some (screen_inc_age s)) = some s2 ∧ ageEq (screen_inc_age s) s2 := by
    by_cases hact : (screen_inc_age s).sel_active = true
    · rw [if_pos hact]
      exact selection_age_spec (screen_inc_age s) _ _ hw1
    · rw [if_neg hact]
      exact ⟨screen_inc_age s, rfl, ageEq_refl (screen_inc_age s)⟩
  obtain ⟨s2, hs2, hae2⟩ := step
  have hg2 : gridEq s s2 := gridEq_trans (gridEq_inc s) hae2.1
  have hw2 : WF s2 := ageEq_WF hae2 hw1
  have hset : selection_set s2 x y = selection_set s x y := selection_set_congr hg2 x y
  have hw3 : WF { s2 with sel_active := true, sel_start := selection_set s2 x y, sel_end := selection_set s2 x y } := hw2
  obtain ⟨t, h3, hae3⟩ :=
    selection_age_spec { s2 with sel_active := true, sel_start := selection_set s2 x y, sel_end := selection_set s2 x y }
      (selection_set s2 x y) (selection_set s2 x y) hw3
  refine ⟨t, ?_, ?_, ?_, ?_, ?_, ?_⟩
  · simp only [tsm_screen_selection_start]
    rw [hs2]
    simp only [Option.some_bind]
    exact h3
  · exact hae3.2.2.2.2
  · rw [hae3.2.2.1]; exact hset
  · rw [hae3.2.2.2.1]; exact hset
  · exact gridEq_trans hg2 (gridEq_trans (by exact ⟨rfl, rfl, rfl, rfl, rfl⟩) hae3.1)
  · rw [hae3.2.1]
    show s2.age_cnt = s.age_cnt + 1
    rw [hae2.2.1]
    rfl

theorem selection_age_isSome (u : Screen) (a b : SelPos) (hw : WF u) :
    (selection_age u a b).isSome := by
  obtain ⟨t, ht, -⟩ := selection_age_spec u a b hw
  rw [ht]; rfl

/-- `tsm_screen_selection_reset` never fails on a well-formed screen. -/
theorem reset_isSome (s : Screen) (hw : WF s) :
    (tsm_screen_selection_reset s).isSome := by
  unfold tsm_screen_selection_reset
  split
  · rfl
  · obtain ⟨t, ht, -⟩ := selection_age_spec (screen_inc_age s)
      (screen_inc_age s).sel_start (screen_inc_age s).sel_end (WF_inc s hw)
    simp [ht]

/-- `tsm_screen_selection_target` never fails on a well-formed screen. -/
theorem target_isSome (s : Screen) (x y : Nat) (hw : WF s) :
    (tsm_screen_selection_target s x y).isSome := by
  unfold tsm_screen_selection_target
  split
  · rfl
  · exact selection_age_isSome _ _ _ (by exact hw)

/-- `tsm_screen_selection_line` never fails on a well-formed screen. -/
theorem line_isSome (s : Screen) (y : Nat) (hw : WF s) :
    (tsm_screen_selection_line s y).isSome := by
  unfold tsm_screen_selection_line
  by_cases hact : (screen_inc_age s).sel_active = true
  · simp only [hact, if_true]
    obtain ⟨s2, hs2, hae2⟩ := selection_age_spec (screen_inc_age s)
      (screen_inc_age s).sel_start (screen_inc_age s).sel_end (WF_inc s hw)
    have hw2 : WF s2 := ageEq_WF hae2 (WF_inc s hw)
    rw [hs2]
    simp only [Option.some_bind]
    exact selection_age_isSome _ _ _ (by exact hw2)
  · simp only [hact, if_false, Option.some_bind]
    exact selection_age_isSome _ _ _ (by exact hw)

/-- `tsm_screen_selection_word` never fails when the row resolution stays
in bounds on a well-formed screen. -/
theorem word_isSome (s : Screen) (x y : Nat) (hw : WF s)
    (hres : (line_get s y).isSome) :
    (tsm_screen_selection_word s x y).isSome := by
  unfold tsm_screen_selection_word
  have step : ∃ s1,
      (if s.sel_active = true then selection_age s s.sel_start s.sel_end else some s) = some s1 ∧
        ageEq s s1 := by
    by_cases hact : s.sel_active = true
    · rw [if_pos hact]
      exact selection_age_spec s _ _ hw
    · rw [if_neg hact]
      exact ⟨s, rfl, ageEq_refl s⟩
  obtain ⟨s1, hs1, hae1⟩ := step
  have hw1 : WF s1 := ageEq_WF hae1 hw
  rw [hs1]
  simp only [Option.some_bind]
  have hlg : (line_get s1 y).map chLine = (line_get s y).map chLine := line_get_congr hae1.1 y
  obtain ⟨L, hL⟩ := Option.isSome_iff_exists.mp hres
  rw [hL] at hlg
  obtain ⟨L1, hL1, -⟩ := Option.map_eq_some'.mp hlg
  rw [hL1]
  simp only [Option.some_bind]
  split
  · exact selection_age_isSome _ _ _ (by exact WF_inc s1 hw1)
  · rfl

/-- Claim C3 (amended): on a well-formed screen, `reset`, `start`,
`target` and `select_line` are total for ALL coordinates (their row
accesses are bounded by the ageing loop's `size_y` counter), and
`select_word` is total whenever the row resolution of `y` stays inside
the history chain or the viewport; it is NOT total for arbitrary `y`
(see the counterexample), because `line_get` indexes `con->lines[y]`
without a bounds check. -/
theorem C3_ops_total (s : Screen) (x y : Nat)
    (h1 : s.lines.length = s.size_y)
    (h2 : ∀ i, s.sb_pos = some i → i < s.sb.length) :
    (tsm_screen_selection_reset s).isSome ∧
    (tsm_screen_selection_start s x y).isSome ∧
    (tsm_screen_selection_target s x y).isSome ∧
    (tsm_screen_selection_line s y).isSome ∧
    ((line_get s y).isSome → (tsm_screen_selection_word s x y).isSome) := by
  have hw : WF s := ⟨h1, h2⟩
  refine ⟨reset_isSome s hw, ?_, target_isSome s x y hw, line_isSome s y hw,
    fun hres => word_isSome s x y hw hres⟩
  obtain ⟨t, ht, -, -, -, -, -⟩ := start_spec s x y hw
  rw [ht]; rfl

/-- A one-cell one-row screen used for the C3 counterexample. -/
def c3row : Line := { cells := [{ ch := 65, age := 0 }], age := 0 }

def c3scr : Screen :=
  { size_x := 1, size_y := 1, lines := [c3row], sb := [], sb_pos := none,
    age_cnt := 0, sel_active := false,
    sel_start := { line := none, x := 0, y := 0 },
    sel_end := { line := none, x := 0, y := 0 } }

/-- Claim C3, counterexample: on a well-formed 1x1 screen with no
history, `select_word(0, 5)` resolves row 5 through `line_get`, which
reads `con->lines[5]` out of bounds (modelled as `none`): out-of-range
coordinates are not clamped or ignored, refuting the claim as stated. -/
theorem C3_counterexample :
    c3scr.lines.length = c3scr.size_y ∧ c3scr.sb_pos = none ∧
    tsm_screen_selection_word c3scr 0 5 = none := by decide

/-- A richer screen (history present, selection active) for the C3
witness. -/
def c3wit : Screen :=
  { size_x := 2, size_y := 2,
    lines := [{ cells := [{ ch := 104, age := 0 }, { ch := 105, age := 0 }], age := 0 },
              { cells := [{ ch := 0, age := 0 }, { ch := 0, age := 0 }], age := 0 }],
    sb := [{ cells := [{ ch := 120, age := 0 }, { ch := 121, age := 0 }], age := 0 }],
    sb_pos := none, age_cnt := 7, sel_active := true,
    sel_start := { line := some 0, x := 0, y := 0 },
    sel_end := { line := none, x := 1, y := 1 } }

theorem C3_witness :
    (tsm_screen_selection_reset c3wit).isSome ∧
    (tsm_screen_selection_start c3wit 1 1).isSome ∧
    (tsm_screen_selection_target c3wit 1 1).isSome ∧
    (tsm_screen_selection_line c3wit 1).isSome ∧
    ((line_get c3wit 1).isSome → (tsm_screen_selection_word c3wit 1 1).isSome) :=
  C3_ops_total c3wit 1 1 (by decide) (by intro i hi; cases hi)

/-- Claim C4 (amended): when the cell at `x` is out of range, empty or
not alphanumeric, `select_word` leaves the selection start, end and
active flag, the global age counter, and every codepoint unchanged, and
is a complete no-op when no selection is active; but when a selection IS
active, the cells of the existing span are re-stamped with the current
(not advanced) age counter value, so cell and row ages may change —
refuting the "every cell age and row age unchanged" part as stated. -/
theorem C4_word_noop (s : Screen) (x y : Nat)
    (h1 : s.lines.length = s.size_y)
    (h2 : ∀ i, s.sb_pos = some i → i < s.sb.length)
    (L : Line) (hL : line_get s y = some L)
    (hno : ¬(x < L.size ∧ iswalnum (cellCh L x) = true)) :
    ∃ t, tsm_screen_selection_word s x y = some t ∧
      t.sel_start = s.sel_start ∧ t.sel_end = s.sel_end ∧
      t.sel_active = s.sel_active ∧ t.age_cnt = s.age_cnt ∧
      t.sb.map chLine = s.sb.map chLine ∧ t.lines.map chLine = s.lines.map chLine ∧
      (s.sel_active = false → t = s) := by
  have hw : WF s := ⟨h1, h2⟩
  unfold tsm_screen_selection_word
  by_cases hact : s.sel_active = true
  · obtain ⟨s1, hs1, hae1⟩ := selection_age_spec s s.sel_start s.sel_end hw
    rw [if_pos hact, hs1]
    simp only [Option.some_bind]
    have hlg : (line_get s1 y).map chLine = (line_get s y).map chLine :=
      line_get_congr hae1.1 y
    rw [hL] at hlg
    obtain ⟨L1, hL1, hch⟩ := Option.map_eq_some'.mp hlg
    rw [hL1]
    simp only [Option.some_bind]
    have hno1 : ¬(x < L1.size ∧ iswalnum (cellCh L1 x) = true) := by
      rw [size_of_chLine hch]
      have : cellCh L1 x = cellCh L x := by simp [cellCh, hch]
      rw [this]
      exact hno
    rw [if_neg hno1]
    refine ⟨s1, rfl, hae1.2.2.1, hae1.2.2.2.1, hae1.2.2.2.2, hae1.2.1,
      hae1.1.2.2.2.1, hae1.1.2.2.2.2, ?_⟩
    intro hf
    rw [hf] at hact
    cases hact
  · have hact' : s.sel_active = false := by
      cases hb : s.sel_active
      · rfl
      · exact absurd hb hact
    rw [if_neg hact]
    simp only [Option.some_bind]
    rw [hL]
    simp only [Option.some_bind]
    rw [if_neg hno]
    exact ⟨s, rfl, rfl, rfl, rfl, rfl, rfl, rfl, fun _ => rfl⟩

/-- The row `"a "` used by the C4 counterexample. -/
def c4row : Line :=
  { cells := [{ ch := 97, age := 0 }, { ch := 32, age := 0 }], age := 0 }

def c4scr : Screen :=
  { size_x := 2, size_y := 1, lines := [c4row], sb := [], sb_pos := none,
    age_cnt := 5, sel_active := true,
    sel_start := { line := none, x := 0, y := 0 },
    sel_end := { line := none, x := 0, y := 0 } }

/-- Claim C4, counterexample: with an active selection over cell (0,0)
whose age is 0 while the counter is 5, `select_word` at the space cell
(column 1, not alphanumeric) re-stamps the old span: cell (0,0)'s age
changes from 0 to 5, so the cell ages are NOT all unchanged. -/
theorem C4_counterexample :
    iswalnum (cellCh c4row 1) = false ∧
    c4scr.lines.map (fun l => l.cells.map Cell.age) = [[0, 0]] ∧
    (tsm_screen_selection_word c4scr 1 0).map
      (fun t => t.lines.map (fun l => l.cells.map Cell.age)) = some [[5, 0]] := by
  decide

/-- An inactive screen with an empty target cell for the C4 witness. -/
def c4wit : Screen :=
  { size_x := 2, size_y := 1,
    lines := [{ cells := [{ ch := 0, age := 0 }, { ch := 106, age := 0 }], age := 0 }],
    sb := [], sb_pos := none, age_cnt := 9, sel_active := false,
    sel_start := { line := none, x := 0, y := 0 },
    sel_end := { line := none, x := 0, y := 0 } }

theorem C4_witness :
    ∃ t, tsm_screen_selection_word c4wit 0 0 = some t ∧
      t.sel_start = c4wit.sel_start ∧ t.sel_end = c4wit.sel_end ∧
      t.sel_active = c4wit.sel_active ∧ t.age_cnt = c4wit.age_cnt ∧
      t.sb.map chLine = c4wit.sb.map chLine ∧
      t.lines.map chLine = c4wit.lines.map chLine ∧
      (c4wit.sel_active = false → t = c4wit) :=
  C4_word_noop c4wit 0 0 (by decide) (by intro i hi; cases hi)
    { cells := [{ ch := 0, age := 0 }, { ch := 106, age := 0 }], age := 0 }
    (by decide) (by decide)

/-- Claim C8: `reset` is idempotent — after any successful `reset` the
selection is inactive, and `reset` of an inactive screen is a complete
no-op (no age advance, no stamping), so a second `reset` returns the
same state unchanged. -/
theorem C8_reset_idempotent (s t : Screen)
    (h : tsm_screen_selection_reset s = some t) :
    tsm_screen_selection_reset t = some t := by
  unfold tsm_screen_selection_reset at h ⊢
  by_cases hact : s.sel_active = false
  · rw [if_pos hact] at h
    cases h
    rw [if_pos hact]
  · rw [if_neg hact] at h
    obtain ⟨s2, -, hmap⟩ := Option.map_eq_some'.mp h
    rw [← hmap]
    rfl

/-- An active one-cell screen for the C8 witness, and the state `reset`
produces from it (cell stamped with the advanced counter, inactive). -/
def c8wit : Screen :=
  { size_x := 1, size_y := 1,
    lines := [{ cells := [{ ch := 97, age := 0 }], age := 0 }],
    sb := [], sb_pos := none, age_cnt := 3, sel_active := true,
    sel_start := { line := none, x := 0, y := 0 },
    sel_end := { line := none, x := 0, y := 0 } }

def c8out : Screen :=
  { size_x := 1, size_y := 1,
    lines := [{ cells := [{ ch := 97, age := 4 }], age := 0 }],
    sb := [], sb_pos := none, age_cnt := 4, sel_active := false,
    sel_start := { line := none, x := 0, y := 0 },
    sel_end := { line := none, x := 0, y := 0 } }

theorem C8_witness : tsm_screen_selection_reset c8out = some c8out :=
  C8_reset_idempotent c8wit c8out (by decide)

/-- Claim C10: every public mutating operation called with a NULL screen
handle is a silent no-op: it returns successfully (no undefined
behaviour), there is no screen state and hence no age counter to touch,
and the handle is left as it was. -/
theorem C10_null_noop (x y : Nat) :
    api_reset none = some none ∧
    api_start none x y = some none ∧
    api_target none x y = some none ∧
    api_word none x y = some none ∧
    api_line none y = some none :=
  ⟨rfl, rfl, rfl, rfl, rfl⟩


/-- Claim C1 (amended): restricted to viewport-only positions (no
history anchor, not the TOP sentinel), `norm_selection` is
order-independent and returns a pair ordered by row then column.  The
unrestricted claim is false: see `C1_counterexample`, where a TOP start
against a history-anchored end is swapped the wrong way. -/
theorem C1_norm_viewport (s : Screen) (a b : SelPos)
    (ha : a.line = none) (hb : b.line = none)
    (hay : a.y ≠ SELECTION_TOP) (hby : b.y ≠ SELECTION_TOP) :
    norm_selection s a b = norm_selection s b a ∧
    ((norm_selection s a b).1.y < (norm_selection s a b).2.y ∨
     ((norm_selection s a b).1.y = (norm_selection s a b).2.y ∧
      (norm_selection s a b).1.x ≤ (norm_selection s a b).2.x)) := by
  obtain ⟨al, ax, ay⟩ := a
  obtain ⟨bl, bx, by'⟩ := b
  subst ha
  subst hb
  have e1 : norm_selection s ⟨none, ax, ay⟩ ⟨none, bx, by'⟩ =
      (if ay = by' then
        (if bx < ax then ((⟨none, bx, by'⟩ : SelPos), (⟨none, ax, ay⟩ : SelPos))
         else ((⟨none, ax, ay⟩ : SelPos), (⟨none, bx, by'⟩ : SelPos)))
       else if by' < ay then ((⟨none, bx, by'⟩ : SelPos), (⟨none, ax, ay⟩ : SelPos))
       else ((⟨none, ax, ay⟩ : SelPos), (⟨none, bx, by'⟩ : SelPos))) := by
    simp [norm_selection, hby]
  have e2 : norm_selection s ⟨none, bx, by'⟩ ⟨none, ax, ay⟩ =
      (if by' = ay then
        (if ax < bx then ((⟨none, ax, ay⟩ : SelPos), (⟨none, bx, by'⟩ : SelPos))
         else ((⟨none, bx, by'⟩ : SelPos), (⟨none, ax, ay⟩ : SelPos)))
       else if ay < by' then ((⟨none, ax, ay⟩ : SelPos), (⟨none, bx, by'⟩ : SelPos))
       else ((⟨none, bx, by'⟩ : SelPos), (⟨none, ax, ay⟩ : SelPos))) := by
    simp [norm_selection, hay]
  rw [e1, e2]
  by_cases h1 : ay = by'
  · subst h1
    rw [if_pos rfl, if_pos rfl]
    by_cases h2 : bx < ax
    · rw [if_pos h2, if_neg (by omega)]
      exact ⟨rfl, Or.inr ⟨rfl, show bx ≤ ax from le_of_lt h2⟩⟩
    · by_cases h3 : ax < bx
      · rw [if_neg h2, if_pos h3]
        exact ⟨rfl, Or.inr ⟨rfl, show ax ≤ bx from le_of_lt h3⟩⟩
      · have hxx : ax = bx := by omega
        subst hxx
        rw [if_neg h2]
        exact ⟨rfl, Or.inr ⟨rfl, le_refl ax⟩⟩
  · rw [if_neg h1, if_neg (show ¬(by' = ay) from fun hh => h1 hh.symm)]
    rcases Nat.lt_trichotomy ay by' with h2 | h2 | h2
    · rw [if_neg (by omega), if_pos h2]
      exact ⟨rfl, Or.inl (show ay < by' from h2)⟩
    · exact absurd h2 h1
    · rw [if_pos h2, if_neg (by omega)]
      exact ⟨rfl, Or.inl (show by' < ay from h2)⟩

/-- A screen with one history row for the C1 counterexample. -/
def c1row : Line := { cells := [{ ch := 65, age := 0 }], age := 0 }

def c1scr : Screen :=
  { size_x := 1, size_y := 1, lines := [c1row], sb := [c1row], sb_pos := none,
    age_cnt := 0, sel_active := false,
    sel_start := { line := none, x := 0, y := 0 },
    sel_end := { line := none, x := 0, y := 0 } }

/-- The TOP sentinel position and a history-anchored position. -/
def c1top : SelPos := { line := none, x := 0, y := SELECTION_TOP }

def c1hist : SelPos := { line := some 0, x := 0, y := 0 }

/-- Claim C1, counterexample: normalizing (TOP, history-anchored) takes
the `!start->line && end->line` branch and swaps, leaving the TOP
sentinel as the BOTTOM of the span — violating `top <= bottom` under the
spec's order (TOP sorts before everything) — while normalizing the
reversed pair swaps the other way, so the result is order-dependent:
`normalize(a,b) != normalize(b,a)`. -/
theorem C1_counterexample :
    norm_selection c1scr c1top c1hist = (c1hist, c1top) ∧
    norm_selection c1scr c1hist c1top = (c1top, c1hist) ∧
    norm_selection c1scr c1top c1hist ≠ norm_selection c1scr c1hist c1top := by
  decide

theorem C1_witness :
    norm_selection c1scr { line := none, x := 0, y := 1 } { line := none, x := 1, y := 0 } =
      norm_selection c1scr { line := none, x := 1, y := 0 } { line := none, x := 0, y := 1 } ∧
    ((norm_selection c1scr { line := none, x := 0, y := 1 } { line := none, x := 1, y := 0 }).1.y <
      (norm_selection c1scr { line := none, x := 0, y := 1 } { line := none, x := 1, y := 0 }).2.y ∨
     ((norm_selection c1scr { line := none, x := 0, y := 1 } { line := none, x := 1, y := 0 }).1.y =
      (norm_selection c1scr { line := none, x := 0, y := 1 } { line := none, x := 1, y := 0 }).2.y ∧
      (norm_selection c1scr { line := none, x := 0, y := 1 } { line := none, x := 1, y := 0 }).1.x ≤
      (norm_selection c1scr { line := none, x := 0, y := 1 } { line := none, x := 1, y := 0 }).2.x)) :=
  C1_norm_viewport c1scr { line := none, x := 0, y := 1 } { line := none, x := 1, y := 0 }
    rfl rfl (by decide) (by decide)

/-- A screen used by the C2 analysis: one column, two viewport rows,
each holding codepoint 0x10000 (a 4-byte UTF-8 character), fully
selected. -/
def c2row : Line := { cells := [{ ch := 65536, age := 0 }], age := 0 }

def c2scr : Screen :=
  { size_x := 1, size_y := 2, lines := [c2row, c2row], sb := [], sb_pos := none,
    age_cnt := 0, sel_active := true,
    sel_start := { line := none, x := 0, y := 0 },
    sel_end := { line := none, x := 0, y := 1 } }

/-- Claim C2 is false of the code: selecting both rows of `c2scr` spans
2 rows, so `calc_line_copy_buffer` allocates `1 * 2 * 4 + 1 = 9` bytes,
but the extraction walk writes 4 encoded bytes plus one line break per
row — 10 bytes — so the last write lands one byte past the end of the
allocation (the code's own comment calls the size "the maximum needed
space", which this refutes: the per-row line break is not budgeted). -/
theorem C2_overflow :
    sel_copy_total_lines c2scr = 2 ∧
    sel_copy_bufsize c2scr = 9 ∧
    (sel_copy_bytes c2scr).map List.length = some 10 := by
  decide

/-- The screen of the C6 analysis: row `"a b"`, an active selection over
the `a` at (0,0) whose cell age is 0, age counter 5. -/
def c6row : Line :=
  { cells := [{ ch := 97, age := 0 }, { ch := 32, age := 0 }, { ch := 98, age := 0 }],
    age := 0 }

def c6scr : Screen :=
  { size_x := 3, size_y := 1, lines := [c6row], sb := [], sb_pos := none,
    age_cnt := 5, sel_active := true,
    sel_start := { line := none, x := 0, y := 0 },
    sel_end := { line := none, x := 0, y := 0 } }

/-- Claim C6 is false of the code for `select_word`: selecting the word
`b` at (2,0) stamps the OLD span (cell 0) with the not-yet-advanced
counter value 5, then advances the counter to 6 and stamps the new span
(cell 2) with 6 — so a stamp written during the operation (age 5 on
cell 0) is NOT the post-increment value, and the advance does not happen
before all stamping.  (The other four mutators do advance first; the
spec describes the evident intent.) -/
theorem C6_stale_stamp :
    c6scr.age_cnt = 5 ∧
    c6scr.lines.map (fun l => l.cells.map Cell.age) = [[0, 0, 0]] ∧
    (tsm_screen_selection_word c6scr 2 0).map
      (fun t => (t.age_cnt, t.lines.map (fun l => l.cells.map Cell.age))) =
      some (6, [[5, 0, 6]]) := by
  decide

/-- Claim C5: `tsm_screen_selection_copy` returns `-EINVAL`
(InvalidArgument) exactly when the screen or out handle is NULL,
`-ENOENT` (NoSelection) exactly when both handles are present and the
selection is inactive, and `-ENOMEM` (OutOfMemory) exactly when the
extraction-buffer allocation fails on the reached allocation (handles
present, selection active, not the both-TOP empty case, which returns
empty success without the extraction buffer).  The embedding returns no
screen and no buffer in the error cases, matching the code, which
performs no writes to the screen anywhere in this function. -/
theorem C5_copy_errors (con : Option Screen) (outOk allocOk : Bool) :
    (selection_copy_api con outOk allocOk = some CopyResult.invalidArgument ↔
      (con = none ∨ outOk = false)) ∧
    (selection_copy_api con outOk allocOk = some CopyResult.noSelection ↔
      (∃ s, con = some s ∧ outOk = true ∧ s.sel_active = false)) ∧
    (selection_copy_api con outOk allocOk = some CopyResult.outOfMemory ↔
      (∃ s, con = some s ∧ outOk = true ∧ s.sel_active = true ∧ both_top s = false ∧
        allocOk = false)) := by
  cases con with
  | none => simp [selection_copy_api]
  | some s =>
    cases outOk with
    | false => simp [selection_copy_api]
    | true =>
      simp only [selection_copy_api, Bool.true_eq_false, if_false, Option.some.injEq,
        reduceCtorEq, false_iff, exists_eq_left']
      unfold tsm_screen_selection_copy
      by_cases hact : s.sel_active = false
      · simp [hact]
      · have hact' : s.sel_active = true := by
          cases h : s.sel_active
          · exact absurd h hact
          · rfl
        by_cases hbt : both_top s = true
        · simp [hact', hbt]
        · have hbt' : both_top s = false := by
            cases h : both_top s
            · rfl
            · exact absurd h hbt
          cases allocOk with
          | false => simp [hact', hbt']
          | true =>
            cases hbytes : sel_copy_bytes s with
            | none => simp [hact', hbt', hbytes]
            | some l => simp [hact', hbt', hbytes]
/-- A UTF-8 encoding of a codepoint other than the line break never
contains the line-break byte (continuation and lead bytes are at least
128). -/
theorem mem_utf8_ne_ten (g : Nat) (hg : g ≠ 10) : 10 ∉ ucs4_to_utf8 g := by
  unfold ucs4_to_utf8
  split_ifs <;> intro hmem <;> simp at hmem <;> omega

theorem encode_no_ten (chs : List Nat) (lo hi : Nat) (h : ∀ c ∈ chs, c ≠ 10) :
    10 ∉ encode_range chs lo hi := by
  intro hmem
  unfold encode_range at hmem
  rw [List.mem_flatten] at hmem
  obtain ⟨piece, hp, hmem10⟩ := hmem
  rw [List.mem_map] at hp
  obtain ⟨c, hc, rfl⟩ := hp
  have hcin : c ∈ chs := List.take_subset hi chs (List.drop_subset lo (chs.take hi) hc)
  have hc10 : c ≠ 10 := h c hcin
  split at hmem10
  · exact mem_utf8_ne_ten c hc10 hmem10
  · simp at hmem10

/-- `copy_line` starting at column 0 emits exactly one line break when
no cell holds the line-break codepoint. -/
theorem copy_line_count_ten (l : Line) (len : Nat)
    (h : ∀ c ∈ chLine l, c ≠ 10) :
    (copy_line l 0 len).count 10 = 1 := by
  unfold copy_line
  rw [if_neg (Nat.not_lt_zero (calc_line_len l))]
  rw [List.count_append]
  rw [List.count_eq_zero.mpr (encode_no_ten (chLine l) 0 (min (0 + len) (calc_line_len l)) h)]
  rfl

theorem flatten_count_ten (L : List Line)
    (h : ∀ l ∈ L, ∀ c ∈ chLine l, c ≠ 10) :
    ((L.map (fun l => copy_line l 0 l.size)).flatten).count 10 = L.length := by
  induction L with
  | nil => rfl
  | cons l ls ih =>
    simp only [List.map_cons, List.flatten_cons, List.count_append, List.length_cons]
    rw [copy_line_count_ten l _ (h l (by simp)), ih (fun l' hl' => h l' (by simp [hl']))]
    omega

theorem copy_all_walk_count (s : Screen)
    (h : ∀ l ∈ s.lines, ∀ c ∈ chLine l, c ≠ 10) :
    ∀ (fuel i : Nat), i + fuel ≤ s.lines.length →
      ∃ out, copy_all_walk s i fuel = some out ∧ out.count 10 = fuel := by
  intro fuel
  induction fuel with
  | zero => intro i _; exact ⟨[], rfl, rfl⟩
  | succ fuel ih =>
    intro i hi
    have hlt : i < s.lines.length := by omega
    have hget : s.lines.get? i = some (s.lines.get ⟨i, hlt⟩) := List.get?_eq_get hlt
    obtain ⟨out, hout, hcnt⟩ := ih (i + 1) (by omega)
    refine ⟨copy_line (s.lines.get ⟨i, hlt⟩) 0 s.size_x ++ out, ?_, ?_⟩
    · simp only [copy_all_walk, hget, hout, Option.map_some']
    · rw [List.count_append, hcnt,
        copy_line_count_ten _ _ (h _ (List.get_mem s.lines _ _))]
      omega

/-- Claim C9: for a buffer whose cells never hold the line-break
codepoint, `copy_all` succeeds (given its allocation) and its output
contains exactly `H + V` line breaks, one appended after each history
and viewport row, with the trailing one not stripped. -/
theorem C9_copy_all_linebreaks (s : Screen)
    (h1 : s.lines.length = s.size_y)
    (hsb : ∀ l ∈ s.sb, ∀ c ∈ chLine l, c ≠ 10)
    (hln : ∀ l ∈ s.lines, ∀ c ∈ chLine l, c ≠ 10) :
    ∃ bytes, tsm_screen_copy_all (some s) true true = some (CopyResult.ok bytes) ∧
      bytes.count 10 = s.sb.length + s.size_y := by
  obtain ⟨out, hout, hcnt⟩ := copy_all_walk_count s hln s.size_y 0 (by omega)
  refine ⟨(s.sb.map (fun l => copy_line l 0 l.size)).flatten ++ out, ?_, ?_⟩
  · simp [tsm_screen_copy_all, copy_all_bytes, hout]
  · rw [List.count_append, flatten_count_ten s.sb hsb, hcnt]

/-- A screen with one history row and one viewport row for the C9
witness. -/
def c9wit : Screen :=
  { size_x := 2, size_y := 1,
    lines := [{ cells := [{ ch := 104, age := 0 }, { ch := 105, age := 0 }], age := 0 }],
    sb := [{ cells := [{ ch := 120, age := 0 }, { ch := 0, age := 0 }], age := 0 }],
    sb_pos := none, age_cnt := 0, sel_active := false,
    sel_start := { line := none, x := 0, y := 0 },
    sel_end := { line := none, x := 0, y := 0 } }

theorem C9_witness :
    ∃ bytes, tsm_screen_copy_all (some c9wit) true true = some (CopyResult.ok bytes) ∧
      bytes.count 10 = c9wit.sb.length + c9wit.size_y :=
  C9_copy_all_linebreaks c9wit (by decide) (by decide) (by decide)
theorem chLine_length (l : Line) : (chLine l).length = l.size := by
  simp [chLine, Line.size]

theorem cll_go_ge_best : ∀ (chs : List Nat) (i best : Nat), best ≤ i + 1 →
    best ≤ calc_line_len_go chs i best := by
  intro chs
  induction chs with
  | nil => intro i best _; exact le_refl best
  | cons c cs ih =>
    intro i best hb
    simp only [calc_line_len_go]
    by_cases hc : c ≠ 0
    · rw [if_pos hc]
      have := ih (i + 1) (i + 1) (by omega)
      omega
    · rw [if_neg hc]
      exact ih (i + 1) best (by omega)

theorem cll_go_mem : ∀ (chs : List Nat) (i best j : Nat), j < chs.length →
    chs.getD j 0 ≠ 0 → i + j + 1 ≤ calc_line_len_go chs i best := by
  intro chs
  induction chs with
  | nil => intro i best j hj _; exact absurd hj (by simp)
  | cons c cs ih =>
    intro i best j hj hch
    cases j with
    | zero =>
      simp only [List.getD, List.get?] at hch
      simp only [calc_line_len_go]
      rw [if_pos (by simpa using hch)]
      have := cll_go_ge_best cs (i + 1) (i + 1) (by omega)
      omega
    | succ j' =>
      simp only [calc_line_len_go]
      have := ih (i + 1) (if c ≠ 0 then i + 1 else best) j' (by simpa using hj)
        (by simpa using hch)
      omega

/-- A nonzero cell lies strictly inside `calc_line_len`. -/
theorem cll_pos (l : Line) (x : Nat) (hx : x < l.size) (hch : cellCh l x ≠ 0) :
    x < calc_line_len l := by
  have := cll_go_mem (chLine l) 0 0 x (by rw [chLine_length]; exact hx) hch
  unfold calc_line_len
  omega

theorem encode_range_empty (chs : List Nat) (x : Nat) :
    encode_range chs x x = [] := by
  unfold encode_range
  rw [List.drop_eq_nil_of_le (by simp [List.length_take])]
  rfl

theorem encode_range_single : ∀ (chs : List Nat) (x : Nat), x < chs.length →
    encode_range chs x (x + 1) =
      (if chs.getD x 0 ≠ 0 then ucs4_to_utf8 (chs.getD x 0) else []) := by
  intro chs
  induction chs with
  | nil => intro x hx; exact absurd hx (by simp)
  | cons c cs ih =>
    intro x hx
    cases x with
    | zero => simp [encode_range, List.getD]
    | succ x' =>
      have := ih x' (by simpa using hx)
      simpa [encode_range, List.getD] using this

/-- `copy_line` of a single cell, with the trailing line break removed:
the encoded character when the cell is nonzero, nothing otherwise. -/
theorem copy_line_single (l : Line) (x : Nat) (hx : x < l.size) :
    (copy_line l x 1).dropLast =
      (if cellCh l x = 0 then [] else ucs4_to_utf8 (cellCh l x)) := by
  unfold copy_line
  by_cases hz : cellCh l x = 0
  · rw [if_pos hz]
    by_cases hlt : calc_line_len l < x
    · rw [if_pos hlt]; rfl
    · rw [if_neg hlt]
      by_cases hxc : x < calc_line_len l
      · rw [show min (x + 1) (calc_line_len l) = x + 1 by omega]
        rw [encode_range_single (chLine l) x (by rw [chLine_length]; exact hx)]
        rw [if_neg (by simpa [cellCh] using hz)]
        rfl
      · rw [show min (x + 1) (calc_line_len l) = x by omega]
        rw [encode_range_empty]
        rfl
  · rw [if_neg hz]
    have hxc : x < calc_line_len l := cll_pos l x hx hz
    rw [if_neg (by omega)]
    rw [show min (x + 1) (calc_line_len l) = x + 1 by omega]
    rw [encode_range_single (chLine l) x (by rw [chLine_length]; exact hx)]
    rw [if_pos (by simpa [cellCh] using hz)]
    rw [show ucs4_to_utf8 10 = [10] from rfl]
    exact List.dropLast_concat
/-- Normalizing an equal pair never swaps observably. -/
theorem norm_refl (s : Screen) (p : SelPos) : norm_selection s p p = (p, p) := by
  unfold norm_selection
  cases hl : p.line with
  | none =>
    by_cases hy : p.y = SELECTION_TOP
    · rw [if_pos ⟨rfl, hy⟩]
    · rw [if_neg (by simp [hy])]
      simp [hl]
  | some i =>
    rw [if_neg (by simp [hl])]
    simp [hl]

/-- The leftover `y` of the resolution walk never exceeds the input. -/
theorem sb_walk_snd_le (L : Nat) : ∀ (y : Nat) (p : Option Nat),
    (sb_walk L p y).2 ≤ y := by
  intro y
  induction y with
  | zero => intro p; cases p <;> simp [sb_walk]
  | succ y ih =>
    intro p
    cases p with
    | none => simp [sb_walk]
    | some i =>
      have := ih (if i + 1 < L then some (i + 1) else none)
      simp only [sb_walk]
      omega
/-- Extracting a degenerate (single-cell) selection anchored in the
scrollback yields exactly that cell's encoded character, or nothing when
the cell is empty. -/
theorem copy_degenerate_sb (u : Screen) (p : SelPos) (i : Nat) (R : Line)
    (hact : u.sel_active = true) (hs : u.sel_start = p) (he : u.sel_end = p)
    (hline : p.line = some i) (hget : u.sb.get? i = some R) (hx : p.x < R.size) :
    tsm_screen_selection_copy u true =
      some (CopyResult.ok
        (if cellCh R p.x = 0 then [] else ucs4_to_utf8 (cellCh R p.x))) := by
  have hbt : both_top u = false := by
    simp [both_top, hs, hline]
  have hspan : sel_copy_span u = (p, p) := by
    unfold sel_copy_span
    rw [hs, he, norm_refl]
    simp [resolve_top, hline]
  have hscr : copy_lines u (sel_copy_span u).1 (sel_copy_span u).2 = some [] := by
    rw [hspan]
    unfold copy_lines
    rw [if_pos (by simp [hline])]
  have hlt : i < u.sb.length := by
    obtain ⟨h, -⟩ := List.get?_eq_some.mp hget
    exact h
  obtain ⟨fuel, hfuel⟩ : ∃ f, u.sb.length = f + 1 := ⟨u.sb.length - 1, by omega⟩
  have hsbw : copy_lines_sb u p p = copy_line R p.x 1 := by
    unfold copy_lines_sb
    rw [hline]
    rw [hfuel]
    simp only [sb_copy_walk, hget]
    rw [if_pos hline]
    rw [show calc_selection_line_len_sb u p p i = 1 by
      unfold calc_selection_line_len_sb
      rw [if_pos rfl, u32sub_self]]
    rw [if_pos (Or.inr hline)]
  have hbytes : sel_copy_bytes u = some (copy_line R p.x 1) := by
    unfold sel_copy_bytes
    rw [hscr]
    rw [hspan]
    rw [hsbw]
    simp
  unfold tsm_screen_selection_copy
  rw [if_neg (by simp [hact]), if_neg (by simp [hbt]), if_neg (by simp)]
  rw [hbytes]
  simp only [Option.map_some']
  rw [copy_line_single R p.x hx]
/-- Extracting a degenerate (single-cell) selection on the viewport
yields exactly that cell's encoded character, or nothing when the cell
is empty. -/
theorem copy_degenerate_screen (u : Screen) (p : SelPos) (R : Line)
    (hact : u.sel_active = true) (hs : u.sel_start = p) (he : u.sel_end = p)
    (hline : p.line = none) (hytop : p.y ≠ SELECTION_TOP)
    (hget : u.lines.get? p.y = some R) (hx : p.x < R.size) :
    tsm_screen_selection_copy u true =
      some (CopyResult.ok
        (if cellCh R p.x = 0 then [] else ucs4_to_utf8 (cellCh R p.x))) := by
  have hbt : both_top u = false := by
    simp [both_top, hs, hytop]
  have hspan : sel_copy_span u = (p, p) := by
    unfold sel_copy_span
    rw [hs, he, norm_refl]
    simp [resolve_top, hytop]
  have hsbw : copy_lines_sb u p p = [] := by
    unfold copy_lines_sb
    rw [hline]
  have hscr : copy_lines u p p = some (copy_line R p.x 1) := by
    unfold copy_lines
    rw [if_neg (by simp [hline])]
    rw [show p.y + 1 - p.y = 1 by omega]
    simp only [screen_copy_walk, hget]
    rw [show calc_selection_line_len u p p p.y = 1 by
      unfold calc_selection_line_len
      rw [if_pos hline, if_pos rfl, u32sub_self]]
    rw [if_pos (by simp [hline])]
    simp
  have hbytes : sel_copy_bytes u = some (copy_line R p.x 1) := by
    unfold sel_copy_bytes
    rw [hspan]
    rw [hscr, hsbw]
    simp
  unfold tsm_screen_selection_copy
  rw [if_neg (by simp [hact]), if_neg (by simp [hbt]), if_neg (by simp)]
  rw [hbytes]
  simp only [Option.map_some']
  rw [copy_line_single R p.x hx]
/-- Claim C7: on a well-formed screen, `start(x, y)` at a coordinate
whose row resolves in bounds, immediately followed by
`copy_selection()`, returns exactly the single encoded character stored
at the resolved cell — or empty text when that cell is empty — with no
line break and no content from any other row. -/
theorem C7_start_copy (s : Screen) (x y : Nat)
    (h1 : s.lines.length = s.size_y)
    (h2 : ∀ i, s.sb_pos = some i → i < s.sb.length)
    (hy : y < SELECTION_TOP)
    (R : Line) (hR : line_get s y = some R) (hx : x < R.size) :
    ∃ t, tsm_screen_selection_start s x y = some t ∧
      tsm_screen_selection_copy t true =
        some (CopyResult.ok
          (if cellCh R x = 0 then [] else ucs4_to_utf8 (cellCh R x))) := by
  have hw : WF s := ⟨h1, h2⟩
  obtain ⟨t, ht, hact, hstart, hend, hg, -⟩ := start_spec s x y hw
  refine ⟨t, ht, ?_⟩
  rcases hww : sb_walk s.sb.length s.sb_pos y with ⟨pOpt, y'⟩
  have hset : selection_set s x y = { line := pOpt, x := x, y := y' } := by
    unfold selection_set
    rw [hww]
  unfold line_get at hR
  rw [hww] at hR
  cases pOpt with
  | some i =>
    have hR' : s.sb.get? i = some R := hR
    have htr : (t.sb.get? i).map chLine = (s.sb.get? i).map chLine := by
      rw [← list_get?_mapL, ← list_get?_mapL, hg.2.2.2.1]
    rw [hR'] at htr
    obtain ⟨R1, hR1, hch1⟩ := Option.map_eq_some'.mp htr
    have hcc : cellCh R1 x = cellCh R x := by simp [cellCh, hch1]
    have := copy_degenerate_sb t { line := some i, x := x, y := y' } i R1 hact
      (by rw [hstart, hset]) (by rw [hend, hset]) rfl hR1
      (by rw [size_of_chLine hch1]; exact hx)
    rw [this, hcc]
  | none =>
    have hyy : y' ≠ SELECTION_TOP := by
      have := sb_walk_snd_le s.sb.length y s.sb_pos
      rw [hww] at this
      simp only at this
      omega
    have hR' : s.lines.get? y' = some R := hR
    have htr : (t.lines.get? y').map chLine = (s.lines.get? y').map chLine := by
      rw [← list_get?_mapL, ← list_get?_mapL, hg.2.2.2.2]
    rw [hR'] at htr
    obtain ⟨R1, hR1, hch1⟩ := Option.map_eq_some'.mp htr
    have hcc : cellCh R1 x = cellCh R x := by simp [cellCh, hch1]
    have := copy_degenerate_screen t { line := none, x := x, y := y' } R1 hact
      (by rw [hstart, hset]) (by rw [hend, hset]) rfl hyy hR1
      (by rw [size_of_chLine hch1]; exact hx)
    rw [this, hcc]

/-- The row `"hi"` used by the C7 witness. -/
def c7row : Line :=
  { cells := [{ ch := 104, age := 0 }, { ch := 105, age := 0 }], age := 0 }

def c7wit : Screen :=
  { size_x := 2, size_y := 1, lines := [c7row], sb := [], sb_pos := none,
    age_cnt := 0, sel_active := false,
    sel_start := { line := none, x := 0, y := 0 },
    sel_end := { line := none, x := 0, y := 0 } }

theorem C7_witness :
    ∃ t, tsm_screen_selection_start c7wit 1 0 = some t ∧
      tsm_screen_selection_copy t true =
        some (CopyResult.ok
          (if cellCh c7row 1 = 0 then [] else ucs4_to_utf8 (cellCh c7row 1))) :=
  C7_start_copy c7wit 1 0 (by decide) (by intro i hi; cases hi) (by decide)
    c7row (by decide) (by decide)
